import Mathlib

/-!
A shallow embedding of the SQLite-backed storage engine in
`packages/opencode/src/storage/sqlite.ts` (namespace `StorageSqlite`).

Modelling conventions:
* Each SQL table is a list of typed rows inside a `Store` structure.
  `INSERT OR REPLACE` / upsert-on-conflict is modelled by removing the rows
  that collide on the primary key and appending the fresh row; all queries
  either look rows up by key or re-sort explicitly (mirroring `ORDER BY`),
  so the physical position of a row in the list is unobservable.
* `JSON.stringify` followed by `JSON.parse` is the identity on the payload
  documents involved, so a `data TEXT` column directly holds the structured
  payload value.  Payload fields the engine never inspects are kept in an
  opaque `rest` association list so that "deep equality" of payloads is
  ordinary equality of the Lean values.
* JavaScript truthiness on an optional string (`if (x)`) is `some s` with
  `s` non-empty; on an optional bool it is `some true`.  `x !== undefined`
  is `Option.isSome`.  TS fields typed `unknown` that the engine only
  passes through (`mode`, `model`, `worktreeCleanup`) are modelled as
  optional strings.
* Timestamps are `Int` (SQLite INTEGER), identifiers are `String`.
-/

namespace StorageSqlite

/-- JS truthiness of `string | undefined`: present and non-empty. -/
def strTruthy : Option String → Bool
  | none => false
  | some s => s != ""

/-- `time` object of a session payload (`{created?, updated?, archived?}`). -/
structure STime where
  created : Option Int := none
  updated : Option Int := none
  archived : Option Int := none
deriving DecidableEq, Repr

/-- `summary` object of a session payload. -/
structure SSummary where
  additions : Option Int := none
  deletions : Option Int := none
  files : Option Int := none
deriving DecidableEq, Repr

/-- `share` object of a session payload. -/
structure SShare where
  url : Option String := none
deriving DecidableEq, Repr

/-- `worktree` object of a session payload. -/
structure SWorktree where
  path : Option String := none
  branch : Option String := none
deriving DecidableEq, Repr

/-- A session payload (`SessionRecord` / `SessionIndexInput` in the source):
the fields the engine reads, plus `rest` for the opaque remainder of the
JSON document. -/
structure SessionRecord where
  id : String
  projectID : String
  parentID : Option String := none
  time : Option STime := none
  title : Option String := none
  directory : Option String := none
  version : Option String := none
  summary : Option SSummary := none
  share : Option SShare := none
  worktree : Option SWorktree := none
  mode : Option String := none
  agent : Option String := none
  model : Option String := none
  variant : Option (Option String) := none
  thinking : Option Bool := none
  worktreeRequested : Option Bool := none
  worktreeCleanup : Option String := none
  rest : List (String × String) := []
deriving DecidableEq, Repr

/-- The optional `data` JSON blob of an index row (built by
`sessionIndexData`). -/
structure IndexExtra where
  mode : Option String := none
  agent : Option String := none
  model : Option String := none
  variant : Option (Option String) := none
  thinking : Option Bool := none
  worktreeRequested : Option Bool := none
  worktreeCleanup : Option String := none
deriving DecidableEq, Repr

/-- A `session_index` table row (`SessionIndexRecord` in the source). -/
structure SessionIndexRecord where
  id : String
  projectID : String
  parentID : Option String
  title : String
  directory : String
  version : Option String
  created_at : Option Int
  updated_at : Option Int
  archived_at : Option Int
  additions : Int
  deletions : Int
  files_changed : Int
  share_url : Option String
  worktree_path : Option String
  worktree_branch : Option String
  data : Option IndexExtra
deriving DecidableEq, Repr

/-- `info.time` of a message payload. -/
structure MTime where
  created : Option Int := none
  completed : Option Int := none
deriving DecidableEq, Repr

/-- The `info` object embedded in a message payload. -/
structure MessageInfo where
  id : String
  sessionID : String
  role : Option String := none
  parentID : Option String := none
  time : Option MTime := none
deriving DecidableEq, Repr

/-- A message payload (`MessageRecord` in the source): the `info` field
(optional, because the runtime guards `if (!info) return`) plus the opaque
remainder of the document. -/
structure MessageRecord where
  info : Option MessageInfo
  rest : List (String × String) := []
deriving DecidableEq, Repr

/-- A part payload (`PartRecord` in the source). -/
structure PartRecord where
  id : String
  rest : List (String × String) := []
deriving DecidableEq, Repr

/-- A row of the `sessions` table. -/
structure SessionRow where
  id : String
  projectID : String
  parentID : Option String
  created_at : Option Int
  updated_at : Option Int
  data : SessionRecord
deriving DecidableEq, Repr

/-- A row of the `messages` table. -/
structure MessageRow where
  id : String
  sessionID : String
  created_at : Option Int
  data : MessageRecord
deriving DecidableEq, Repr

/-- A row of the `message_parts` table. -/
structure PartRow where
  sessionID : String
  messageID : String
  id : String
  data : PartRecord
deriving DecidableEq, Repr

/-- The database state: one list of rows per table of the schema.  A
`session_diff` payload is opaque to the engine, so it is modelled by its
serialized form (a `String`). -/
structure Store where
  meta : List (String × String) := []
  sessions : List SessionRow := []
  session_index : List SessionIndexRecord := []
  messages : List MessageRow := []
  message_parts : List PartRow := []
  session_diff : List (String × String) := []
deriving DecidableEq, Repr

/-- The empty database produced by running the schema on a fresh file. -/
def emptyStore : Store := {}

/-- `INSERT ... ON CONFLICT DO UPDATE` / `INSERT OR REPLACE`: drop the rows
colliding with `row` on the primary key, append `row`. -/
def upsertBy {α : Type} (conflict : α → α → Bool) (row : α) (t : List α) : List α :=
  t.filter (fun r => !conflict r row) ++ [row]

/-- `ORDER BY key ASC` (SQL sorts are stable for our purposes because every
query's sort key contains the row's primary key or the row set is re-sorted
identically on both sides of each equation). -/
def sortAscBy {α K : Type} [LinearOrder K] (key : α → K) (l : List α) : List α :=
  l.insertionSort (fun a b => key a ≤ key b)

/-- `ORDER BY key DESC`. -/
def sortDescBy {α K : Type} [LinearOrder K] (key : α → K) (l : List α) : List α :=
  l.insertionSort (fun a b => key b ≤ key a)

/-- SQL comparison key for `ORDER BY updated_at DESC, id DESC`: SQLite
treats NULL as smaller than every integer, so a NULL `updated_at` maps to
`⊥`. -/
def optBot (o : Option Int) : WithBot Int :=
  match o with
  | none => ⊥
  | some v => (v : WithBot Int)

/-- SQLite's TEXT ordering (bytewise comparison of UTF-8, which coincides
with code-point lexicographic order): the string as its character list,
under the lexicographic order on `List Char`. -/
def strKey (s : String) : List Char :=
  s.toList

/-- Composite sort key of a `session_index` row. -/
def idxKey (r : SessionIndexRecord) : Lex (WithBot Int × List Char) :=
  toLex (optBot r.updated_at, strKey r.id)

/-- `SELECT value FROM meta WHERE key = ?` (`metaGet`). -/
def metaGet (st : Store) (key : String) : Option String :=
  (st.meta.find? (fun e => e.1 == key)).map (fun e => e.2)

/-- `INSERT OR REPLACE INTO meta` (`metaSet`). -/
def metaSet (st : Store) (key value : String) : Store :=
  { st with meta := upsertBy (fun a b => a.1 == b.1) (key, value) st.meta }

/-- `sessionIndexData`: collect the optional extra fields; return the blob
only when at least one field is present. -/
def sessionIndexData (s : SessionRecord) : Option IndexExtra :=
  let d : IndexExtra :=
    { mode := if strTruthy s.mode then s.mode else none
      agent := if strTruthy s.agent then s.agent else none
      model := if strTruthy s.model then s.model else none
      variant := s.variant
      thinking := s.thinking
      worktreeRequested := if s.worktreeRequested == some true then some true else none
      worktreeCleanup := if strTruthy s.worktreeCleanup then s.worktreeCleanup else none }
  let has := d.mode.isSome || d.agent.isSome || d.model.isSome || d.variant.isSome ||
    d.thinking.isSome || d.worktreeRequested.isSome || d.worktreeCleanup.isSome
  if has then some d else none

/-- `sessionIndexRow`: derive an index row from a session payload, or
nothing when `title` / `directory` is absent, non-string or empty. -/
def sessionIndexRow (s : SessionRecord) : Option SessionIndexRecord :=
  let title := s.title.getD ""
  if title = "" then none else
  let directory := s.directory.getD ""
  if directory = "" then none else
  let createdAt := s.time.bind (fun t => t.created)
  let updatedAt := (s.time.bind (fun t => t.updated)).orElse (fun _ => createdAt)
  some
    { id := s.id
      projectID := s.projectID
      parentID := s.parentID
      title := title
      directory := directory
      version := s.version
      created_at := createdAt
      updated_at := updatedAt
      archived_at := s.time.bind (fun t => t.archived)
      additions := (s.summary.bind (fun x => x.additions)).getD 0
      deletions := (s.summary.bind (fun x => x.deletions)).getD 0
      files_changed := (s.summary.bind (fun x => x.files)).getD 0
      share_url := s.share.bind (fun x => x.url)
      worktree_path := s.worktree.bind (fun x => x.path)
      worktree_branch := s.worktree.bind (fun x => x.branch)
      data := sessionIndexData s }

/-- Effect of `writeSessionIndexWithDb` on the `session_index` table:
upsert the derived row, or leave the table untouched when derivation
yields nothing. -/
def writeIndexTable (t : List SessionIndexRecord) (s : SessionRecord) : List SessionIndexRecord :=
  match sessionIndexRow s with
  | none => t
  | some row => upsertBy (fun a b => a.id == b.id) row t

/-- `writeSessionIndex` (index-only write; used by the backfill sweep). -/
def writeSessionIndex (st : Store) (s : SessionRecord) : Store :=
  { st with session_index := writeIndexTable st.session_index s }

/-- `readSession`: point lookup in `sessions`, decoding `data`. -/
def readSession (st : Store) (id : String) : Option SessionRecord :=
  (st.sessions.find? (fun r => r.id == id)).map (fun r => r.data)

/-- The `sessions` row written by `writeSession`. -/
def sessionRowOf (s : SessionRecord) : SessionRow :=
  { id := s.id
    projectID := s.projectID
    parentID := s.parentID
    created_at := s.time.bind (fun t => t.created)
    updated_at := s.time.bind (fun t => t.updated)
    data := s }

/-- `writeSession`: one transaction upserting the canonical row and the
derived index row (the transactional failure behaviour is modelled
separately by `runUnits` below; this is the success semantics). -/
def writeSession (st : Store) (s : SessionRecord) : Store :=
  { st with
    sessions := upsertBy (fun a b => a.id == b.id) (sessionRowOf s) st.sessions
    session_index := writeIndexTable st.session_index s }

/-- `listSessions`: ids of a project's sessions, `ORDER BY id ASC`. -/
def listSessions (st : Store) (projectID : String) : List String :=
  sortAscBy strKey ((st.sessions.filter (fun r => r.projectID == projectID)).map (fun r => r.id))

/-- `removeSession`: two separate `DELETE` statements (sessions, then
session_index); no transaction in the source. -/
def removeSession (st : Store) (id : String) : Store :=
  { st with
    sessions := st.sessions.filter (fun r => !(r.id == id))
    session_index := st.session_index.filter (fun r => !(r.id == id)) }

/-- `ensureSessionIndex`: if the meta flag is truthy do nothing, else sweep
every `sessions` row through `writeSessionIndex` and set the flag. -/
def ensureSessionIndex (st : Store) : Store :=
  if strTruthy (metaGet st "session-index-seeded") then st
  else
    let swept := st.sessions.foldl (fun acc row => writeSessionIndex acc row.data) st
    metaSet swept "session-index-seeded" "1"

/-- `readSessionIndexRow`: runs `ensureSessionIndex` first, then a point
lookup.  Returns the result together with the (possibly seeded) state. -/
def readSessionIndexRow (st : Store) (id : String) : Option SessionIndexRecord × Store :=
  let st' := ensureSessionIndex st
  ((st'.session_index.find? (fun r => r.id == id)), st')

/-- Query input of `listSessionIndex` (`SessionIndexQuery`). -/
structure SessionIndexQuery where
  projectID : String
  limit : Option Nat := none
  start : Option Int := none
  afterID : Option String := none
  search : Option String := none
  directory : Option String := none
  includeArchived : Option Bool := none
deriving DecidableEq, Repr

/-- Case-insensitive `LIKE '%pat%'` prefix test on character lists. -/
def seqPrefixOf : List Char → List Char → Bool
  | [], _ => true
  | _ :: _, [] => false
  | a :: as, b :: bs => a == b && seqPrefixOf as bs

/-- Case-insensitive `LIKE '%pat%'` containment test on character lists. -/
def seqContains (needle : List Char) : List Char → Bool
  | [] => needle.isEmpty
  | b :: t => seqPrefixOf needle (b :: t) || seqContains needle t

/-- `title LIKE '%pat%' COLLATE NOCASE` (for patterns without SQL
wildcard characters, which is how the engine builds them). -/
def likeNoCase (title pat : String) : Bool :=
  seqContains pat.toLower.toList title.toLower.toList

/-- `LIMIT ?` when present. -/
def applyLimit {α : Type} (l : List α) : Option Nat → List α
  | none => l
  | some n => l.take n

/-- The resolved keyset-cursor clause of `listSessionIndex`:
`COALESCE(updated_at, 0) < ? OR (COALESCE(updated_at, 0) = ? AND id < ?)`
with the parameters `(cursorUpdatedAt, cursorID)`. -/
def cursorClause (cc : Int × String) (r : SessionIndexRecord) : Bool :=
  decide (r.updated_at.getD 0 < cc.1)
    || (r.updated_at.getD 0 == cc.1 && decide (strKey r.id < strKey cc.2))

/-- The `WHERE` predicate assembled by `listSessionIndex`; `cursor` is the
already-resolved `(cursorUpdatedAt, cursorID)` pair (present only when the
`afterID` row resolved). -/
def sessionIndexPred (q : SessionIndexQuery) (cursor : Option (Int × String))
    (r : SessionIndexRecord) : Bool :=
  r.projectID == q.projectID
  && (match q.start with
      | none => true
      | some s =>
        -- SQL `updated_at >= ?` is NULL (false) on a NULL column
        match r.updated_at with
        | none => false
        | some u => decide (s ≤ u))
  && (match cursor with
      | none => true
      | some cc => cursorClause cc r)
  && (match q.search with
      | none => true
      | some s => if s != "" then likeNoCase r.title s else true)
  && (match q.directory with
      | none => true
      | some d => if d != "" then r.directory == d else true)
  && (if q.includeArchived.getD true then true else r.archived_at.isNone)

/-- `listSessionIndex`: ensure the index is seeded, resolve the cursor row
(an unresolvable or falsy `afterID` contributes no clause), filter, order
by `(updated_at DESC, id DESC)` and apply the limit. -/
def listSessionIndex (st : Store) (q : SessionIndexQuery) :
    List SessionIndexRecord × Store :=
  let st' := ensureSessionIndex st
  let cursor : Option (Int × String) :=
    match q.afterID with
    | none => none
    | some a =>
      if a != "" then
        match st'.session_index.find? (fun r => r.id == a) with
        | none => none
        | some after => some ((after.updated_at.orElse (fun _ => after.created_at)).getD 0, after.id)
      else none
  (applyLimit (sortDescBy idxKey (st'.session_index.filter (sessionIndexPred q cursor))) q.limit, st')

/-- `listSessionIndexChildren`. -/
def listSessionIndexChildren (st : Store) (parentID : String) :
    List SessionIndexRecord × Store :=
  let st' := ensureSessionIndex st
  (sortDescBy idxKey (st'.session_index.filter (fun r => r.parentID == some parentID)), st')

/-- `readMessage`: point lookup by `(sessionID, id)`, decoding `data`. -/
def readMessage (st : Store) (sessionID messageID : String) : Option MessageRecord :=
  (st.messages.find? (fun r => r.sessionID == sessionID && r.id == messageID)).map (fun r => r.data)

/-- `writeMessage`: silently returns when `info` is absent; otherwise
stores exactly `{ info }` (every other top-level field of the input is
dropped by `JSON.stringify({ info })`). -/
def writeMessage (st : Store) (input : MessageRecord) : Store :=
  match input.info with
  | none => st
  | some info =>
    { st with
      messages := upsertBy (fun a b => a.id == b.id)
        { id := info.id
          sessionID := info.sessionID
          created_at := info.time.bind (fun t => t.created)
          data := { info := some info, rest := [] } } st.messages }

/-- `listMessages`: ids of a session's messages, `ORDER BY id ASC`. -/
def listMessages (st : Store) (sessionID : String) : List String :=
  sortAscBy strKey ((st.messages.filter (fun r => r.sessionID == sessionID)).map (fun r => r.id))

/-- `readParts`: `ORDER BY id ASC`, decoding each `data`. -/
def readParts (st : Store) (sessionID messageID : String) : List PartRecord :=
  (sortAscBy (fun r => strKey r.id)
    (st.message_parts.filter (fun r => r.sessionID == sessionID && r.messageID == messageID))).map
    (fun r => r.data)

/-- The `message_parts` row written for one part. -/
def partRowOf (sessionID messageID : String) (p : PartRecord) : PartRow :=
  { sessionID := sessionID, messageID := messageID, id := p.id, data := p }

/-- Primary-key collision test of `message_parts`. -/
def partConflict (a b : PartRow) : Bool :=
  a.sessionID == b.sessionID && a.messageID == b.messageID && a.id == b.id

/-- `writeParts`: empty input is a no-op; otherwise a transaction of
`INSERT OR REPLACE` statements (success semantics). -/
def writeParts (st : Store) (sessionID messageID : String) (parts : List PartRecord) : Store :=
  if parts.isEmpty then st
  else
    { st with
      message_parts :=
        parts.foldl (fun t p => upsertBy partConflict (partRowOf sessionID messageID p) t)
          st.message_parts }

/-- `removeParts`: empty input is a no-op; otherwise a transaction of
`DELETE` statements (success semantics). -/
def removeParts (st : Store) (sessionID messageID : String) (partIDs : List String) : Store :=
  if partIDs.isEmpty then st
  else
    { st with
      message_parts :=
        partIDs.foldl
          (fun t pid =>
            t.filter (fun r => !(r.sessionID == sessionID && r.messageID == messageID && r.id == pid)))
          st.message_parts }

/-- `removeMessageParts`: single `DELETE` of every part of one message. -/
def removeMessageParts (st : Store) (sessionID messageID : String) : Store :=
  { st with
    message_parts :=
      st.message_parts.filter (fun r => !(r.sessionID == sessionID && r.messageID == messageID)) }

/-- `removeMessage`: `DELETE` of the message row, then `removeMessageParts`
(two separate auto-committed statements; no transaction in the source). -/
def removeMessage (st : Store) (sessionID messageID : String) : Store :=
  removeMessageParts
    { st with messages := st.messages.filter (fun r => !(r.sessionID == sessionID && r.id == messageID)) }
    sessionID messageID

/-- `removeMessages`: delete a session's messages, then its parts (two
separate auto-committed statements; no transaction in the source). -/
def removeMessages (st : Store) (sessionID : String) : Store :=
  { st with
    messages := st.messages.filter (fun r => !(r.sessionID == sessionID))
    message_parts := st.message_parts.filter (fun r => !(r.sessionID == sessionID)) }

/-- `countMessages`: `SELECT COUNT(*) ... WHERE sessionID = ?`. -/
def countMessages (st : Store) (sessionID : String) : Nat :=
  (st.messages.filter (fun r => r.sessionID == sessionID)).length

/-- `readDiff`. -/
def readDiff (st : Store) (sessionID : String) : Option String :=
  (st.session_diff.find? (fun e => e.1 == sessionID)).map (fun e => e.2)

/-- `writeDiff`. -/
def writeDiff (st : Store) (sessionID value : String) : Store :=
  { st with session_diff := upsertBy (fun a b => a.1 == b.1) (sessionID, value) st.session_diff }

/-- `removeDiff`. -/
def removeDiff (st : Store) (sessionID : String) : Store :=
  { st with session_diff := st.session_diff.filter (fun e => !(e.1 == sessionID)) }

/-- Input of the message paging functions (`MessageListInput`). -/
structure MessageListInput where
  sessionID : String
  limit : Option Nat := none
  afterID : Option String := none
deriving DecidableEq, Repr

/-- `SELECT id FROM messages WHERE sessionID = ? ORDER BY id DESC`. -/
def msgPageAll (st : Store) (sid : String) : List String :=
  sortDescBy strKey ((st.messages.filter (fun m => m.sessionID == sid)).map (fun m => m.id))

/-- `SELECT id FROM messages WHERE sessionID = ? AND id < ? ORDER BY id DESC`. -/
def msgPageAfter (st : Store) (sid a : String) : List String :=
  sortDescBy strKey
    ((st.messages.filter (fun m => m.sessionID == sid && decide (strKey m.id < strKey a))).map
      (fun m => m.id))

/-- `listMessagesPage`: the source's four branches (`afterID` truthy ×
`limit !== undefined`), each running one of the two queries above with or
without `LIMIT`.  A falsy (absent or empty) `afterID` falls through to the
cursorless branches, exactly as `if (afterID && ...)` does. -/
def listMessagesPage (st : Store) (q : MessageListInput) : List String :=
  match q.afterID, q.limit with
  | some a, some l =>
    if a != "" then (msgPageAfter st q.sessionID a).take l else (msgPageAll st q.sessionID).take l
  | some a, none =>
    if a != "" then msgPageAfter st q.sessionID a else msgPageAll st q.sessionID
  | none, some l => (msgPageAll st q.sessionID).take l
  | none, none => msgPageAll st q.sessionID

/-- One entry of the joined listing (`MessageWithParts`). -/
structure MessageWithParts where
  info : MessageInfo
  parts : List PartRecord
deriving DecidableEq, Repr

/-- `parsed.info ?? parsed`: when the stored document has no `info` field
the source casts the whole document to an info object, whose `id` and
`sessionID` are then `undefined`; that degenerate cast is modelled by
empty strings (it is unreachable for rows written by `writeMessage`). -/
def castMessageInfo (m : MessageRecord) : MessageInfo :=
  match m.info with
  | some i => i
  | none => { id := "", sessionID := "" }

/-- One row of the left-join query of `listMessagesWithPartsPage`. -/
structure JoinRow where
  messageID : String
  message : MessageRecord
  part : Option PartRecord
deriving DecidableEq, Repr

/-- The part rows joined to one message, in `p.id ASC` order. -/
def partsRowsAsc (st : Store) (sid mid : String) : List PartRow :=
  sortAscBy (fun r => strKey r.id)
    (st.message_parts.filter (fun p => p.sessionID == sid && p.messageID == mid))

/-- The block of join rows one message contributes: its part rows in
ascending order, or a single NULL-part row when it has none (LEFT JOIN). -/
def blockFor (st : Store) (sid : String) (m : MessageRow) : List JoinRow :=
  match partsRowsAsc st sid m.id with
  | [] => [{ messageID := m.id, message := m.data, part := none }]
  | ps => ps.map (fun p => { messageID := m.id, message := m.data, part := some p.data })

/-- Result rows of
`SELECT m.id, m.data, p.data FROM messages m LEFT JOIN message_parts p
 ON p.sessionID = m.sessionID AND p.messageID = m.id
 WHERE m.sessionID = ? AND m.id IN (ids) ORDER BY m.id DESC, p.id ASC`:
because `m.id` is the primary key, ordering by `(m.id DESC, p.id ASC)`
yields each selected message's block of part rows (ascending), messages
descending, with a single NULL-part row for a partless message. -/
def joinRowsFor (st : Store) (sid : String) (ids : List String) : List JoinRow :=
  (sortDescBy (fun r => strKey r.id)
      (st.messages.filter (fun m => m.sessionID == sid && ids.contains m.id))).flatMap
    (blockFor st sid)

/-- Appending one join row to the open group (the source mutates the entry
it pushed last, so the accumulator is kept in reverse with the open group
at its head). -/
def groupPush (row : JoinRow) (e : MessageWithParts) (rest : List MessageWithParts) :
    List MessageWithParts :=
  match row.part with
  | none => e :: rest
  | some p => { e with parts := e.parts ++ [p] } :: rest

/-- One step of the streaming group-by of `listMessagesWithPartsPage`. -/
def groupStep (acc : List MessageWithParts) (row : JoinRow) : List MessageWithParts :=
  match acc with
  | e :: rest =>
    if e.info.id == row.messageID then groupPush row e rest
    else groupPush row { info := castMessageInfo row.message, parts := [] } acc
  | [] => groupPush row { info := castMessageInfo row.message, parts := [] } []

/-- The `groupRows` materialization loop. -/
def groupRows (rows : List JoinRow) : List MessageWithParts :=
  (rows.foldl groupStep []).reverse

/-- `listMessagesWithPartsPage`: four branches with the same subselects as
`listMessagesPage`, each feeding the joined rows through `groupRows`. -/
def listMessagesWithPartsPage (st : Store) (q : MessageListInput) : List MessageWithParts :=
  match q.afterID, q.limit with
  | some a, some l =>
    if a != "" then groupRows (joinRowsFor st q.sessionID ((msgPageAfter st q.sessionID a).take l))
    else groupRows (joinRowsFor st q.sessionID ((msgPageAll st q.sessionID).take l))
  | some a, none =>
    if a != "" then groupRows (joinRowsFor st q.sessionID (msgPageAfter st q.sessionID a))
    else groupRows (joinRowsFor st q.sessionID (msgPageAll st q.sessionID))
  | none, some l => groupRows (joinRowsFor st q.sessionID ((msgPageAll st q.sessionID).take l))
  | none, none => groupRows (joinRowsFor st q.sessionID (msgPageAll st q.sessionID))

/-!
### Statement-level execution model

SQLite executes each statement atomically; a statement outside an explicit
transaction auto-commits, and `db.transaction(fn)` rolls the state back to
the transaction entry point when any statement inside throws, re-raising
the error (so statements after a failure never run).  `Stmt` is the set of
mutating statements the engine issues, `DbUnit` distinguishes a bare
auto-committed statement from an explicit transaction, and `runUnits`
executes a program under a failure oracle `failAt` assigning an error to
statements by position.
-/

/-- A mutating SQL statement issued by the engine. -/
inductive Stmt where
  | upsertSession (s : SessionRecord)
  | upsertIndexRow (r : SessionIndexRecord)
  | deleteSessionRow (id : String)
  | deleteIndexRow (id : String)
  | deleteMessageRow (sessionID id : String)
  | deleteMessagesOf (sessionID : String)
  | upsertPart (sessionID messageID : String) (p : PartRecord)
  | deletePartRow (sessionID messageID id : String)
  | deletePartsOfMessage (sessionID messageID : String)
  | deletePartsOfSession (sessionID : String)
deriving DecidableEq, Repr

/-- Success semantics of a single statement. -/
def applyStmt (st : Store) : Stmt → Store
  | .upsertSession s =>
    { st with sessions := upsertBy (fun a b => a.id == b.id) (sessionRowOf s) st.sessions }
  | .upsertIndexRow r =>
    { st with session_index := upsertBy (fun a b => a.id == b.id) r st.session_index }
  | .deleteSessionRow id =>
    { st with sessions := st.sessions.filter (fun r => !(r.id == id)) }
  | .deleteIndexRow id =>
    { st with session_index := st.session_index.filter (fun r => !(r.id == id)) }
  | .deleteMessageRow sid mid =>
    { st with messages := st.messages.filter (fun r => !(r.sessionID == sid && r.id == mid)) }
  | .deleteMessagesOf sid =>
    { st with messages := st.messages.filter (fun r => !(r.sessionID == sid)) }
  | .upsertPart sid mid p =>
    { st with message_parts := upsertBy partConflict (partRowOf sid mid p) st.message_parts }
  | .deletePartRow sid mid pid =>
    { st with message_parts :=
        st.message_parts.filter (fun r => !(r.sessionID == sid && r.messageID == mid && r.id == pid)) }
  | .deletePartsOfMessage sid mid =>
    { st with message_parts :=
        st.message_parts.filter (fun r => !(r.sessionID == sid && r.messageID == mid)) }
  | .deletePartsOfSession sid =>
    { st with message_parts := st.message_parts.filter (fun r => !(r.sessionID == sid)) }

/-- A bare auto-committed statement, or an explicit transaction. -/
inductive DbUnit where
  | single (s : Stmt)
  | tx (ss : List Stmt)
deriving DecidableEq, Repr

/-- Run the statements of a transaction body; on the first failure stop
with the intermediate state (the enclosing transaction will discard it). -/
def runStmts (failAt : Nat → Bool) : Nat → Store → List Stmt → Store × Bool × Nat
  | n, st, [] => (st, true, n)
  | n, st, s :: rest =>
    if failAt n then (st, false, n + 1)
    else runStmts failAt (n + 1) (applyStmt st s) rest

/-- Run one unit: a failing bare statement leaves the state unchanged; a
failing transaction rolls back to its entry state.  Either failure aborts
the whole program (the JS exception propagates). -/
def runUnit (failAt : Nat → Bool) (n : Nat) (st : Store) : DbUnit → Store × Bool × Nat
  | .single s => if failAt n then (st, false, n + 1) else (applyStmt st s, true, n + 1)
  | .tx ss =>
    match runStmts failAt n st ss with
    | (st', true, n') => (st', true, n')
    | (_, false, n') => (st, false, n')

/-- Run a program of units under a failure oracle. -/
def runUnits (failAt : Nat → Bool) : Nat → Store → List DbUnit → Store × Bool × Nat
  | n, st, [] => (st, true, n)
  | n, st, u :: rest =>
    match runUnit failAt n st u with
    | (st', true, n') => runUnits failAt n' st' rest
    | (st', false, n') => (st', false, n')

/-- The statement program of `writeSession`: one transaction holding the
canonical upsert and, when derivable, the index upsert. -/
def writeSessionUnits (s : SessionRecord) : List DbUnit :=
  [DbUnit.tx ([Stmt.upsertSession s] ++
    (match sessionIndexRow s with
     | none => []
     | some r => [Stmt.upsertIndexRow r]))]

/-- The statement program of `removeSession`: two bare statements. -/
def removeSessionUnits (id : String) : List DbUnit :=
  [DbUnit.single (Stmt.deleteSessionRow id), DbUnit.single (Stmt.deleteIndexRow id)]

/-- The statement program of `removeMessage`: two bare statements. -/
def removeMessageUnits (sessionID messageID : String) : List DbUnit :=
  [DbUnit.single (Stmt.deleteMessageRow sessionID messageID),
   DbUnit.single (Stmt.deletePartsOfMessage sessionID messageID)]

/-- The statement program of `removeMessages`: two bare statements. -/
def removeMessagesUnits (sessionID : String) : List DbUnit :=
  [DbUnit.single (Stmt.deleteMessagesOf sessionID),
   DbUnit.single (Stmt.deletePartsOfSession sessionID)]

/-- The statement program of `removeParts`: nothing for an empty batch,
otherwise one transaction of per-id deletes. -/
def removePartsUnits (sessionID messageID : String) (partIDs : List String) : List DbUnit :=
  if partIDs.isEmpty then []
  else [DbUnit.tx (partIDs.map (fun pid => Stmt.deletePartRow sessionID messageID pid))]

/-!
### Generic list lemmas

Stability facts about `insertionSort` (filtering commutes with sorting),
lookup-after-upsert, and a characterization of `IN`-filtering by a sorted
id page.
-/

/-- Inserting an element that precedes the whole list puts it in front. -/
theorem orderedInsert_of_forall {α : Type} (r : α → α → Prop) [DecidableRel r] (a : α)
    (l : List α) (h : ∀ b ∈ l, r a b) : l.orderedInsert r a = a :: l := by
  cases l with
  | nil => rfl
  | cons b t => exact List.orderedInsert_of_le r t (h b (List.mem_cons_self b t))

/-- Filtering distributes over `orderedInsert` into a sorted list. -/
theorem filter_orderedInsert {α : Type} (r : α → α → Prop) [DecidableRel r] [IsTrans α r]
    (p : α → Bool) (a : α) :
    ∀ l : List α, l.Sorted r →
      (l.orderedInsert r a).filter p =
        if p a then (l.filter p).orderedInsert r a else l.filter p := by
  intro l hl
  induction l with
  | nil =>
    by_cases hpa : p a = true
    · simp [List.orderedInsert, List.filter, hpa]
    · simp [List.orderedInsert, List.filter, hpa]
  | cons b t ih =>
    rw [List.orderedInsert]
    by_cases hab : r a b
    · rw [if_pos hab]
      by_cases hpa : p a = true
      · rw [List.filter_cons_of_pos hpa, if_pos hpa]
        rw [orderedInsert_of_forall r a ((b :: t).filter p)]
        intro c hc
        have hc' := List.mem_of_mem_filter hc
        rcases List.mem_cons.mp hc' with rfl | hct
        · exact hab
        · exact Trans.trans hab (List.rel_of_sorted_cons hl c hct)
      · rw [List.filter_cons_of_neg (by simpa using hpa), if_neg (by simpa using hpa)]
    · rw [if_neg hab]
      by_cases hpb : p b = true
      · rw [List.filter_cons_of_pos hpb, List.filter_cons_of_pos hpb, ih hl.of_cons]
        by_cases hpa : p a = true
        · rw [if_pos hpa, if_pos hpa, List.orderedInsert, if_neg hab]
        · rw [if_neg (by simpa using hpa), if_neg (by simpa using hpa)]
      · rw [List.filter_cons_of_neg (by simpa using hpb), List.filter_cons_of_neg (by simpa using hpb),
          ih hl.of_cons]

/-- Stability: filtering commutes with insertion sort. -/
theorem filter_insertionSort {α : Type} (r : α → α → Prop) [DecidableRel r] [IsTrans α r]
    [IsTotal α r] (p : α → Bool) (l : List α) :
    (l.insertionSort r).filter p = (l.filter p).insertionSort r := by
  induction l with
  | nil => rfl
  | cons a t ih =>
    rw [List.insertionSort,
      filter_orderedInsert r p a (t.insertionSort r) (List.sorted_insertionSort r t), ih]
    by_cases hpa : p a = true
    · rw [if_pos hpa, List.filter_cons_of_pos hpa, List.insertionSort]
    · rw [if_neg (by simpa using hpa), List.filter_cons_of_neg (by simpa using hpa)]

/-- `sortDescBy` commutes with filtering. -/
theorem filter_sortDescBy {α K : Type} [LinearOrder K] (key : α → K) (p : α → Bool)
    (l : List α) : (sortDescBy key l).filter p = sortDescBy key (l.filter p) := by
  haveI : IsTrans α (fun a b => key b ≤ key a) := ⟨fun _ _ _ hab hbc => le_trans hbc hab⟩
  haveI : IsTotal α (fun a b => key b ≤ key a) :=
    ⟨fun a b => (le_total (key b) (key a)).elim Or.inl Or.inr⟩
  exact filter_insertionSort _ p l

/-- `sortAscBy` commutes with filtering. -/
theorem filter_sortAscBy {α K : Type} [LinearOrder K] (key : α → K) (p : α → Bool)
    (l : List α) : (sortAscBy key l).filter p = sortAscBy key (l.filter p) := by
  haveI : IsTrans α (fun a b => key a ≤ key b) := ⟨fun _ _ _ hab hbc => le_trans hab hbc⟩
  haveI : IsTotal α (fun a b => key a ≤ key b) :=
    ⟨fun a b => (le_total (key a) (key b)).elim Or.inl Or.inr⟩
  exact filter_insertionSort _ p l

/-- Mapping through a descending sort whose key factors through the map. -/
theorem map_sortDescBy {α β K : Type} [LinearOrder K] (f : α → β) (key : β → K)
    (l : List α) :
    (sortDescBy (fun a => key (f a)) l).map f = sortDescBy key (l.map f) :=
  List.map_insertionSort _ _ f l (fun _ _ _ _ => Iff.rfl)

/-- A `sortDescBy` result is sorted by descending key. -/
theorem sorted_sortDescBy {α K : Type} [LinearOrder K] (key : α → K) (l : List α) :
    (sortDescBy key l).Sorted (fun a b => key b ≤ key a) := by
  haveI : IsTrans α (fun a b => key b ≤ key a) := ⟨fun _ _ _ hab hbc => le_trans hbc hab⟩
  haveI : IsTotal α (fun a b => key b ≤ key a) :=
    ⟨fun a b => (le_total (key b) (key a)).elim Or.inl Or.inr⟩
  exact List.sorted_insertionSort _ l

/-- Sorting an already ascending-sorted list is the identity. -/
theorem sortAscBy_of_sorted {α K : Type} [LinearOrder K] (key : α → K) (l : List α)
    (h : l.Sorted (fun a b => key a ≤ key b)) : sortAscBy key l = l :=
  List.Sorted.insertionSort_eq h

/-- `find?` after an upsert whose conflict test matches the lookup
predicate returns the fresh row. -/
theorem find?_upsertBy {α : Type} (conflict : α → α → Bool) (q : α → Bool) (row : α)
    (t : List α) (hq : q row = true) (heq : ∀ r, q r = true → conflict r row = true) :
    (upsertBy conflict row t).find? q = some row := by
  induction t with
  | nil => simp [upsertBy, List.find?, hq]
  | cons a t ih =>
    by_cases hc : conflict a row = true
    · simpa [upsertBy, hc] using ih
    · have hqa : q a = false := by
        cases hqa : q a
        · rfl
        · exact absurd (heq a hqa) hc
      simpa [upsertBy, hc, List.find?, hqa] using ih

/-- Filtering a `Nodup` list by membership in one of its sublists recovers
the sublist. -/
theorem filter_contains_of_sublist {α : Type} [BEq α] [LawfulBEq α] :
    ∀ {P D : List α}, List.Sublist P D → D.Nodup → D.filter (fun x => P.contains x) = P := by
  intro P D hs
  induction hs with
  | slnil => simp
  | @cons P D a hsub ih =>
    intro hnd
    have ha : a ∉ D := (List.nodup_cons.mp hnd).1
    have haP : a ∉ P := fun hmem => ha (hsub.subset hmem)
    rw [List.filter_cons_of_neg (by simpa using haP), ih (List.nodup_cons.mp hnd).2]
  | @cons₂ P D a hsub ih =>
    intro hnd
    have ha : a ∉ D := (List.nodup_cons.mp hnd).1
    rw [List.filter_cons_of_pos (by simp)]
    have hcongr : D.filter (fun x => (a :: P).contains x) = D.filter (fun x => P.contains x) := by
      apply List.filter_congr
      intro x hx
      have hxa : x ≠ a := fun h => ha (h ▸ hx)
      simp [List.contains_cons, hxa]
    rw [hcongr, ih (List.nodup_cons.mp hnd).2]

/-!
### Claims
-/

/-- C10: `removeSession(id)` deletes only from `sessions` and
`session_index`; the `messages`, `message_parts` and `session_diff` tables
(and `meta`) are left completely unchanged, so in particular every row of
those tables belonging to the removed session survives. -/
theorem C10_removeSession_frame (st : Store) (id : String) :
    (removeSession st id).messages = st.messages ∧
    (removeSession st id).message_parts = st.message_parts ∧
    (removeSession st id).session_diff = st.session_diff ∧
    (removeSession st id).meta = st.meta :=
  ⟨rfl, rfl, rfl, rfl⟩

/-- C6: `writeSession` issues the canonical upsert and the derived index
upsert inside one transaction (`writeSessionUnits` is a single `DbUnit.tx`),
so under every failure oracle the resulting state is either the initial
state (everything rolled back) or the full `writeSession` result (both
writes applied); with no failure it is exactly `writeSession`.  No state
in which only one of the two tables was updated is reachable. -/
theorem C6_writeSession_transactional (st : Store) (s : SessionRecord) (failAt : Nat → Bool) :
    ((runUnits failAt 0 st (writeSessionUnits s)).1 = st ∨
      (runUnits failAt 0 st (writeSessionUnits s)).1 = writeSession st s) ∧
    (runUnits (fun _ => false) 0 st (writeSessionUnits s)).1 = writeSession st s := by
  constructor
  · cases hidx : sessionIndexRow s with
    | none =>
      cases h0 : failAt 0
      · right
        simp [writeSessionUnits, hidx, runUnits, runUnit, runStmts, h0, applyStmt,
          writeSession, writeIndexTable]
      · left
        simp [writeSessionUnits, hidx, runUnits, runUnit, runStmts, h0]
    | some r =>
      cases h0 : failAt 0
      · cases h1 : failAt 1
        · right
          simp [writeSessionUnits, hidx, runUnits, runUnit, runStmts, h0, h1, applyStmt,
            writeSession, writeIndexTable]
        · left
          simp [writeSessionUnits, hidx, runUnits, runUnit, runStmts, h0, h1]
      · left
        simp [writeSessionUnits, hidx, runUnits, runUnit, runStmts, h0]
  · cases hidx : sessionIndexRow s with
    | none =>
      simp [writeSessionUnits, hidx, runUnits, runUnit, runStmts, applyStmt,
        writeSession, writeIndexTable]
    | some r =>
      simp [writeSessionUnits, hidx, runUnits, runUnit, runStmts, applyStmt,
        writeSession, writeIndexTable]

/-- Reading back a message just written: the stored payload is exactly
`{ info }`. -/
theorem readMessage_writeMessage (st : Store) (m : MessageRecord) (i : MessageInfo)
    (hi : m.info = some i) :
    readMessage (writeMessage st m) i.sessionID i.id =
      some { info := some i, rest := [] } := by
  simp only [writeMessage, readMessage, hi]
  rw [find?_upsertBy (fun a b : MessageRow => a.id == b.id)
      (fun r : MessageRow => r.sessionID == i.sessionID && r.id == i.id)
      { id := i.id, sessionID := i.sessionID,
        created_at := i.time.bind (fun t => t.created),
        data := { info := some i, rest := [] } } st.messages
      (by simp)
      (fun r hr => by
        simp only [Bool.and_eq_true, beq_iff_eq] at hr
        simp [hr.2])]
  rfl

/-- C9: when the input's `info` field is present, `writeMessage` persists
exactly `{ info }` — a later `readMessage(info.sessionID, info.id)` returns
the record whose only content is that `info` (`rest = []`), every other
top-level field of the input having been discarded; when `info` is absent,
`writeMessage` is a silent no-op. -/
theorem C9_writeMessage_stores_info_only (st : Store) (m : MessageRecord) :
    (∀ i : MessageInfo, m.info = some i →
      readMessage (writeMessage st m) i.sessionID i.id =
        some { info := some i, rest := [] }) ∧
    (m.info = none → writeMessage st m = st) := by
  refine ⟨fun i hi => readMessage_writeMessage st m i hi, fun hnone => ?_⟩
  simp only [writeMessage, hnone]

/-- C9 witness: a concrete record with an extra top-level field. -/
theorem C9_writeMessage_stores_info_only_witness :
    readMessage
        (writeMessage emptyStore
          { info := some { id := "m1", sessionID := "S" }, rest := [("extra", "1")] })
        "S" "m1" =
      some { info := some { id := "m1", sessionID := "S" }, rest := [] } :=
  (C9_writeMessage_stores_info_only emptyStore
      { info := some { id := "m1", sessionID := "S" }, rest := [("extra", "1")] }).1
    { id := "m1", sessionID := "S" } rfl

/-- Reading back a session just written always yields the full payload. -/
theorem readSession_writeSession (st : Store) (s : SessionRecord) :
    readSession (writeSession st s) s.id = some s := by
  simp only [writeSession, readSession]
  rw [find?_upsertBy (fun a b : SessionRow => a.id == b.id)
      (fun r : SessionRow => r.id == s.id) (sessionRowOf s) st.sessions
      (by simp [sessionRowOf]) (fun r hr => by simpa [sessionRowOf] using hr)]
  rfl

/-- The `(sessionID, messageID)` slice of `message_parts` after the
`writeParts` fold, for a batch whose ids are fresh w.r.t. the table. -/
theorem partsFold_filter (sid mid : String) :
    ∀ (ps : List PartRecord) (t : List PartRow),
      (ps.map (fun p => p.id)).Nodup →
      (∀ p ∈ ps, ∀ r ∈ t, partConflict r (partRowOf sid mid p) = false) →
      ((ps.foldl (fun tt p => upsertBy partConflict (partRowOf sid mid p) tt) t).filter
          (fun r => r.sessionID == sid && r.messageID == mid))
        = (t.filter (fun r => r.sessionID == sid && r.messageID == mid)) ++
            ps.map (partRowOf sid mid) := by
  intro ps
  induction ps with
  | nil => intro t _ _; simp
  | cons p pt ih =>
    intro t hnd hfresh
    rw [List.map_cons, List.nodup_cons] at hnd
    obtain ⟨hpid, hndt⟩ := hnd
    have hself : t.filter (fun r => !partConflict r (partRowOf sid mid p)) = t := by
      apply List.filter_eq_self.mpr
      intro r hr
      simp [hfresh p (List.mem_cons_self p pt) r hr]
    have hstep :
        upsertBy partConflict (partRowOf sid mid p) t = t ++ [partRowOf sid mid p] := by
      rw [upsertBy, hself]
    rw [List.foldl_cons, hstep, ih (t ++ [partRowOf sid mid p]) hndt ?fresh]
    case fresh =>
      intro q hq r hr
      rcases List.mem_append.mp hr with hrt | hrow
      · exact hfresh q (List.mem_cons_of_mem p hq) r hrt
      · have hrq : r = partRowOf sid mid p := by simpa using hrow
        subst hrq
        have hne : p.id ≠ q.id := by
          intro h
          exact hpid (h ▸ List.mem_map_of_mem (fun x => x.id) hq)
        simp [partConflict, partRowOf, hne]
    rw [List.filter_append]
    have : ([partRowOf sid mid p].filter (fun r => r.sessionID == sid && r.messageID == mid))
        = [partRowOf sid mid p] := by simp [partRowOf]
    rw [this, List.append_assoc]
    rfl

/-- Projecting the payloads back out of freshly built part rows. -/
theorem map_data_partRowOf (sid mid : String) (ps : List PartRecord) :
    (ps.map (partRowOf sid mid)).map (fun r => r.data) = ps := by
  induction ps with
  | nil => rfl
  | cons p pt ih => simp only [List.map_cons, ih, partRowOf]

/-- C1 counterexample: the message round-trip fails as universally stated,
because `writeMessage` persists only `{ info }`: a record carrying any
other top-level field does not read back deep-equal to itself. -/
theorem C1_counterexample :
    readMessage
        (writeMessage emptyStore
          { info := some { id := "m1", sessionID := "S" }, rest := [("extra", "1")] })
        "S" "m1" ≠
      some { info := some { id := "m1", sessionID := "S" }, rest := [("extra", "1")] } := by
  decide

/-- C1 (amended): `writeSession` / `readSession` and `writeDiff` /
`readDiff` round-trip exactly; `writeMessage` / `readMessage` round-trips
to `{ info }` (deep-equal to the input only when `info` is its single
top-level field); `writeParts` / `readParts` round-trips provided the
message had no pre-existing parts and the batch's part ids are strictly
ascending (reads sort by part id). -/
theorem C1_roundtrip_amended (st : Store) (s : SessionRecord) (m : MessageRecord)
    (i : MessageInfo) (sid mid diffID : String) (ps : List PartRecord) (v : String)
    (hi : m.info = some i)
    (hfresh : st.message_parts.filter (fun r => r.sessionID == sid && r.messageID == mid) = [])
    (hasc : ps.Pairwise (fun p q => strKey p.id < strKey q.id)) :
    readSession (writeSession st s) s.id = some s ∧
    readMessage (writeMessage st m) i.sessionID i.id = some { info := some i, rest := [] } ∧
    readParts (writeParts st sid mid ps) sid mid = ps ∧
    readDiff (writeDiff st diffID v) diffID = some v := by
  refine ⟨readSession_writeSession st s, readMessage_writeMessage st m i hi, ?parts, ?diff⟩
  case parts =>
    cases hps : ps with
    | nil =>
      simp only [writeParts, hps, List.isEmpty_nil, if_pos]
      simp [readParts, hfresh, sortAscBy]
    | cons p0 pt =>
      have hne : ps.isEmpty = false := by rw [hps]; rfl
      rw [← hps]
      simp only [writeParts, hne, Bool.false_eq_true, if_neg, not_false_eq_true]
      unfold readParts
      rw [partsFold_filter sid mid ps st.message_parts
          (by
            have : (ps.map (fun x => x.id)).Pairwise (fun a b => a ≠ b) := by
              rw [List.pairwise_map]
              refine hasc.imp (fun h heq => ?_)
              rw [heq] at h
              exact lt_irrefl _ h
            exact this)
          (by
            intro q hq r hr
            cases hcf : partConflict r (partRowOf sid mid q)
            · rfl
            · exfalso
              have hmem : r ∈ st.message_parts.filter
                  (fun rr => rr.sessionID == sid && rr.messageID == mid) := by
                apply List.mem_filter.mpr
                refine ⟨hr, ?_⟩
                have hc := hcf
                simp only [partConflict, partRowOf, Bool.and_eq_true] at hc
                simp [hc.1.1, hc.1.2]
              rw [hfresh] at hmem
              exact absurd hmem (List.not_mem_nil r)), hfresh]
      rw [List.nil_append]
      rw [sortAscBy_of_sorted (fun r => strKey r.id) (ps.map (partRowOf sid mid))
          (by
            rw [List.Sorted, List.pairwise_map]
            exact hasc.imp (fun h => le_of_lt h))]
      rw [map_data_partRowOf]
  case diff =>
    simp only [writeDiff, readDiff]
    rw [find?_upsertBy (fun a b : String × String => a.1 == b.1)
        (fun e : String × String => e.1 == diffID) (diffID, v) st.session_diff
        (by simp) (fun r hr => by simpa using hr)]
    rfl

/-- C1 witness: concrete round-trips through an initially empty store. -/
theorem C1_roundtrip_amended_witness :
    readSession
        (writeSession emptyStore { id := "s1", projectID := "p" }) "s1" =
      some { id := "s1", projectID := "p" } ∧
    readMessage
        (writeMessage emptyStore { info := some { id := "m1", sessionID := "S" } })
        "S" "m1" =
      some { info := some { id := "m1", sessionID := "S" }, rest := [] } ∧
    readParts (writeParts emptyStore "S" "m1" [{ id := "p1" }, { id := "p2" }]) "S" "m1" =
      [{ id := "p1" }, { id := "p2" }] ∧
    readDiff (writeDiff emptyStore "S" "d1") "S" = some "d1" :=
  C1_roundtrip_amended emptyStore { id := "s1", projectID := "p" }
    { info := some { id := "m1", sessionID := "S" } }
    { id := "m1", sessionID := "S" } "S" "m1" "S"
    [{ id := "p1" }, { id := "p2" }] "d1" rfl rfl (by decide)

/-- A derived index row carries the session's id. -/
theorem sessionIndexRow_id (s : SessionRecord) (r : SessionIndexRecord)
    (h : sessionIndexRow s = some r) : r.id = s.id := by
  simp only [sessionIndexRow] at h
  by_cases h1 : s.title.getD "" = ""
  · rw [if_pos h1] at h
    exact Option.noConfusion h
  · rw [if_neg h1] at h
    by_cases h2 : s.directory.getD "" = ""
    · rw [if_pos h2] at h
      exact Option.noConfusion h
    · rw [if_neg h2] at h
      rw [← Option.some.inj h]

/-- Derivation succeeds exactly for non-empty string title and directory. -/
theorem sessionIndexRow_isSome_iff (s : SessionRecord) :
    (sessionIndexRow s).isSome = true ↔
      (s.title.getD "" ≠ "" ∧ s.directory.getD "" ≠ "") := by
  simp only [sessionIndexRow]
  by_cases h1 : s.title.getD "" = "" <;> by_cases h2 : s.directory.getD "" = "" <;>
    simp [h1, h2]

/-- An upsert makes its key visible to `any`. -/
theorem any_upsertBy {α : Type} (conflict : α → α → Bool) (q : α → Bool) (row : α)
    (t : List α) (hq : q row = true) : (upsertBy conflict row t).any q = true := by
  simp [upsertBy, List.any_append, hq]

/-- C4 counterexample: the "row exists iff title and directory non-empty"
invariant fails after re-writing an indexed session with the title
removed — the canonical payload now lacks a title, yet the stale index row
survives (derivation skips without deleting). -/
theorem C4_counterexample :
    ((writeSession
        (writeSession (metaSet emptyStore "session-index-seeded" "1")
          { id := "s1", projectID := "p", title := some "T", directory := some "/d" })
        { id := "s1", projectID := "p" }).session_index.any (fun r => r.id == "s1") = true) ∧
    readSession
        (writeSession
          (writeSession (metaSet emptyStore "session-index-seeded" "1")
            { id := "s1", projectID := "p", title := some "T", directory := some "/d" })
          { id := "s1", projectID := "p" }) "s1" =
      some { id := "s1", projectID := "p" } ∧
    ({ id := "s1", projectID := "p" } : SessionRecord).title = none := by
  decide

/-- C4 (amended): a `writeSession` missing a non-empty title or directory
derives no index row and leaves the `session_index` table entirely
unchanged (in particular a stale row from an earlier titled write is not
deleted); the canonical read still succeeds; and for an id with no
pre-existing index row, an index row exists after the write iff the
payload has a non-empty string title and a non-empty string directory. -/
theorem C4_index_write_amended (st : Store) (s : SessionRecord)
    (hfresh : st.session_index.any (fun r => r.id == s.id) = false) :
    ((writeSession st s).session_index.any (fun r => r.id == s.id) = true ↔
      (s.title.getD "" ≠ "" ∧ s.directory.getD "" ≠ "")) ∧
    readSession (writeSession st s) s.id = some s ∧
    (sessionIndexRow s = none → (writeSession st s).session_index = st.session_index) := by
  refine ⟨?iff, readSession_writeSession st s, ?frame⟩
  case iff =>
    cases hidx : sessionIndexRow s with
    | none =>
      have hno : ¬(s.title.getD "" ≠ "" ∧ s.directory.getD "" ≠ "") := by
        rw [← sessionIndexRow_isSome_iff, hidx]
        simp
      simp only [writeSession, writeIndexTable, hidx]
      rw [hfresh]
      simp [hno]
    | some r =>
      have hyes : s.title.getD "" ≠ "" ∧ s.directory.getD "" ≠ "" := by
        rw [← sessionIndexRow_isSome_iff, hidx]
        rfl
      simp only [writeSession, writeIndexTable, hidx]
      rw [any_upsertBy _ _ r st.session_index (by simp [sessionIndexRow_id s r hidx])]
      simp [hyes]
  case frame =>
    intro hidx
    simp only [writeSession, writeIndexTable, hidx]

/-- C4 witness: a fresh, title-less session gets no index row while its
canonical read succeeds. -/
theorem C4_index_write_amended_witness :
    ((writeSession emptyStore { id := "s1", projectID := "p" }).session_index.any
        (fun r => r.id == "s1") = true ↔
      (({ id := "s1", projectID := "p" } : SessionRecord).title.getD "" ≠ "" ∧
        ({ id := "s1", projectID := "p" } : SessionRecord).directory.getD "" ≠ "")) ∧
    readSession (writeSession emptyStore { id := "s1", projectID := "p" }) "s1" =
      some { id := "s1", projectID := "p" } ∧
    (sessionIndexRow { id := "s1", projectID := "p" } = none →
      (writeSession emptyStore { id := "s1", projectID := "p" }).session_index =
        emptyStore.session_index) :=
  C4_index_write_amended emptyStore { id := "s1", projectID := "p" } rfl

/-- Reading a key back right after `metaSet`. -/
theorem metaGet_metaSet (st : Store) (k v : String) :
    metaGet (metaSet st k v) k = some v := by
  simp only [metaSet, metaGet]
  rw [find?_upsertBy (fun a b : String × String => a.1 == b.1)
      (fun e : String × String => e.1 == k) (k, v) st.meta
      (by simp) (fun r hr => by simpa using hr)]
  rfl

/-- After `ensureSessionIndex` the seed flag is truthy. -/
theorem ensure_seeded_flag (st : Store) :
    strTruthy (metaGet (ensureSessionIndex st) "session-index-seeded") = true := by
  unfold ensureSessionIndex
  by_cases h : strTruthy (metaGet st "session-index-seeded") = true
  · rw [if_pos h]
    exact h
  · rw [if_neg h, metaGet_metaSet]
    rfl

/-- A store with a truthy seed flag is left untouched by the backfill. -/
theorem ensure_of_seeded (st : Store)
    (h : strTruthy (metaGet st "session-index-seeded") = true) :
    ensureSessionIndex st = st := by
  unfold ensureSessionIndex
  rw [if_pos h]

/-- C5: `ensureSessionIndex` is idempotent — a second run returns the state
of the first run unchanged — and once it has run, a session written via
`writeSession` (here one whose payload derives an index row `r`; payloads
failing derivation are invisible by design, §4.2) is returned by
`readSessionIndexRow` without any re-sweep: the read's internal
`ensureSessionIndex` leaves the state exactly as the write left it. -/
theorem C5_ensure_idempotent (st : Store) (s : SessionRecord) (r : SessionIndexRecord)
    (hr : sessionIndexRow s = some r) :
    ensureSessionIndex (ensureSessionIndex st) = ensureSessionIndex st ∧
    readSessionIndexRow (writeSession (ensureSessionIndex st) s) s.id =
      (some r, writeSession (ensureSessionIndex st) s) := by
  constructor
  · exact ensure_of_seeded _ (ensure_seeded_flag st)
  · have hflag :
        strTruthy (metaGet (writeSession (ensureSessionIndex st) s) "session-index-seeded")
          = true := by
      have hmeta :
          metaGet (writeSession (ensureSessionIndex st) s) "session-index-seeded" =
            metaGet (ensureSessionIndex st) "session-index-seeded" := rfl
      rw [hmeta]
      exact ensure_seeded_flag st
    unfold readSessionIndexRow
    rw [ensure_of_seeded _ hflag]
    have hidx :
        (writeSession (ensureSessionIndex st) s).session_index =
          upsertBy (fun a b => a.id == b.id) r (ensureSessionIndex st).session_index := by
      simp only [writeSession, writeIndexTable, hr]
    simp only [hidx]
    rw [find?_upsertBy (fun a b : SessionIndexRecord => a.id == b.id)
        (fun x : SessionIndexRecord => x.id == s.id) r _
        (by simp [sessionIndexRow_id s r hr])
        (fun x hx => by
          show (x.id == r.id) = true
          rw [sessionIndexRow_id s r hr]
          exact hx)]

/-- C5 witness: seeding an empty store then writing a titled session makes
its index row readable with no further sweep. -/
theorem C5_ensure_idempotent_witness :
    ensureSessionIndex (ensureSessionIndex emptyStore) = ensureSessionIndex emptyStore ∧
    readSessionIndexRow
        (writeSession (ensureSessionIndex emptyStore)
          { id := "s1", projectID := "p", title := some "T", directory := some "/d" }) "s1" =
      (some
        { id := "s1", projectID := "p", parentID := none, title := "T", directory := "/d",
          version := none, created_at := none, updated_at := none, archived_at := none,
          additions := 0, deletions := 0, files_changed := 0, share_url := none,
          worktree_path := none, worktree_branch := none, data := none },
       writeSession (ensureSessionIndex emptyStore)
        { id := "s1", projectID := "p", title := some "T", directory := some "/d" }) :=
  C5_ensure_idempotent emptyStore
    { id := "s1", projectID := "p", title := some "T", directory := some "/d" }
    { id := "s1", projectID := "p", parentID := none, title := "T", directory := "/d",
      version := none, created_at := none, updated_at := none, archived_at := none,
      additions := 0, deletions := 0, files_changed := 0, share_url := none,
      worktree_path := none, worktree_branch := none, data := none }
    (by decide)

/-- A transaction body that reports success has applied all its
statements. -/
theorem runStmts_ok (failAt : Nat → Bool) :
    ∀ (ss : List Stmt) (n : Nat) (st : Store),
      (runStmts failAt n st ss).2.1 = true →
      (runStmts failAt n st ss).1 = ss.foldl applyStmt st := by
  intro ss
  induction ss with
  | nil => intro n st _; rfl
  | cons s rest ih =>
    intro n st hok
    by_cases hf : failAt n = true
    · rw [runStmts, if_pos hf] at hok
      exact absurd hok (by simp)
    · rw [runStmts, if_neg hf] at hok ⊢
      exact ih (n + 1) (applyStmt st s) hok

/-- The per-id part deletes, folded, equal the `removeParts` table
update. -/
theorem foldl_applyStmt_deleteParts (sid mid : String) :
    ∀ (ids : List String) (st : Store),
      (ids.map (fun pid => Stmt.deletePartRow sid mid pid)).foldl applyStmt st =
        { st with
          message_parts :=
            ids.foldl
              (fun t pid =>
                t.filter (fun r => !(r.sessionID == sid && r.messageID == mid && r.id == pid)))
              st.message_parts } := by
  intro ids
  induction ids with
  | nil => intro st; rfl
  | cons pid rest ih =>
    intro st
    rw [List.map_cons, List.foldl_cons, ih]
    rfl

/-- C7 counterexample: `removeMessage` issues its two deletions as two
separate auto-committed statements with no transaction, so an error on the
second statement leaves the message row deleted while its parts survive —
the state is changed, contradicting the claimed all-or-nothing rollback. -/
theorem C7_counterexample :
    ((runUnits (fun n => n == 1) 0
        (writeParts (writeMessage emptyStore { info := some { id := "m1", sessionID := "S" } })
          "S" "m1" [{ id := "p1" }])
        (removeMessageUnits "S" "m1")).2.1 = false) ∧
    ((runUnits (fun n => n == 1) 0
        (writeParts (writeMessage emptyStore { info := some { id := "m1", sessionID := "S" } })
          "S" "m1" [{ id := "p1" }])
        (removeMessageUnits "S" "m1")).1 ≠
      writeParts (writeMessage emptyStore { info := some { id := "m1", sessionID := "S" } })
        "S" "m1" [{ id := "p1" }]) ∧
    ((runUnits (fun n => n == 1) 0
        (writeParts (writeMessage emptyStore { info := some { id := "m1", sessionID := "S" } })
          "S" "m1" [{ id := "p1" }])
        (removeMessageUnits "S" "m1")).1.messages = []) ∧
    ((runUnits (fun n => n == 1) 0
        (writeParts (writeMessage emptyStore { info := some { id := "m1", sessionID := "S" } })
          "S" "m1" [{ id := "p1" }])
        (removeMessageUnits "S" "m1")).1.message_parts ≠ []) := by
  decide

/-- C7 (amended): `removeParts` is genuinely transactional — under every
failure oracle it is all-or-nothing.  `removeMessage`, `removeMessages` and
`removeSession` do perform every implied table deletion when no error
occurs, but they issue their two deletions as separate auto-committed
statements (no transaction): under a failure oracle the reachable states
are exactly the initial state, the state after the first deletion alone,
or the fully removed state. -/
theorem C7_remove_amended (st : Store) (failAt : Nat → Bool) (sid mid id0 : String)
    (ids : List String) :
    ((runUnits failAt 0 st (removePartsUnits sid mid ids)).1 = st ∨
      (runUnits failAt 0 st (removePartsUnits sid mid ids)).1 = removeParts st sid mid ids) ∧
    (runUnits (fun _ => false) 0 st (removeMessageUnits sid mid)).1 = removeMessage st sid mid ∧
    (runUnits (fun _ => false) 0 st (removeMessagesUnits sid)).1 = removeMessages st sid ∧
    (runUnits (fun _ => false) 0 st (removeSessionUnits id0)).1 = removeSession st id0 ∧
    ((runUnits failAt 0 st (removeMessageUnits sid mid)).1 = st ∨
      (runUnits failAt 0 st (removeMessageUnits sid mid)).1 =
        applyStmt st (Stmt.deleteMessageRow sid mid) ∨
      (runUnits failAt 0 st (removeMessageUnits sid mid)).1 = removeMessage st sid mid) ∧
    ((runUnits failAt 0 st (removeMessagesUnits sid)).1 = st ∨
      (runUnits failAt 0 st (removeMessagesUnits sid)).1 =
        applyStmt st (Stmt.deleteMessagesOf sid) ∨
      (runUnits failAt 0 st (removeMessagesUnits sid)).1 = removeMessages st sid) ∧
    ((runUnits failAt 0 st (removeSessionUnits id0)).1 = st ∨
      (runUnits failAt 0 st (removeSessionUnits id0)).1 =
        applyStmt st (Stmt.deleteSessionRow id0) ∨
      (runUnits failAt 0 st (removeSessionUnits id0)).1 = removeSession st id0) := by
  refine ⟨?parts, ?msgOK, ?msgsOK, ?sessOK, ?msgF, ?msgsF, ?sessF⟩
  case parts =>
    by_cases hids : ids.isEmpty
    · left
      rw [removePartsUnits, if_pos hids]
      rfl
    · rw [removePartsUnits, if_neg hids]
      rcases hrun : runStmts failAt 0 st (ids.map fun pid => Stmt.deletePartRow sid mid pid)
        with ⟨st', ok, n'⟩
      cases ok
      · left
        simp [runUnits, runUnit, hrun]
      · right
        have hok : st' = (ids.map fun pid => Stmt.deletePartRow sid mid pid).foldl applyStmt st := by
          have h := runStmts_ok failAt (ids.map fun pid => Stmt.deletePartRow sid mid pid) 0 st
            (by rw [hrun])
          rw [hrun] at h
          exact h
        rw [hok] at hrun
        simp [runUnits, runUnit, hrun, foldl_applyStmt_deleteParts, removeParts, hids]
  case msgOK => rfl
  case msgsOK => rfl
  case sessOK => rfl
  case msgF =>
    cases h0 : failAt 0
    · cases h1 : failAt 1
      · right; right
        simp [runUnits, runUnit, h0, h1]
        rfl
      · right; left
        simp [runUnits, runUnit, h0, h1]
    · left
      simp [runUnits, runUnit, h0]
  case msgsF =>
    cases h0 : failAt 0
    · cases h1 : failAt 1
      · right; right
        simp [runUnits, runUnit, h0, h1]
        rfl
      · right; left
        simp [runUnits, runUnit, h0, h1]
    · left
      simp [runUnits, runUnit, h0]
  case sessF =>
    cases h0 : failAt 0
    · cases h1 : failAt 1
      · right; right
        simp [runUnits, runUnit, h0, h1]
        rfl
      · right; left
        simp [runUnits, runUnit, h0, h1]
    · left
      simp [runUnits, runUnit, h0]

/-- Mapping commutes with filtering by a predicate on the image. -/
theorem map_filter_comp {α β : Type} (f : α → β) (p : β → Bool) (l : List α) :
    (l.filter (fun x => p (f x))).map f = (l.map f).filter p := by
  induction l with
  | nil => rfl
  | cons a t ih =>
    simp only [List.map_cons, List.filter_cons]
    by_cases hp : p (f a) = true
    · simp [hp, ih]
    · simp [hp, ih]

/-- The cursored message query equals the cursorless one filtered by
`id < afterID`. -/
theorem msgPageAfter_eq (st : Store) (sid a : String) :
    msgPageAfter st sid a =
      (msgPageAll st sid).filter (fun i => decide (strKey i < strKey a)) := by
  unfold msgPageAfter msgPageAll
  rw [filter_sortDescBy]
  congr 1
  rw [← map_filter_comp (fun m : MessageRow => m.id)
      (fun i => decide (strKey i < strKey a))
      (st.messages.filter (fun m => m.sessionID == sid))]
  congr 1
  rw [List.filter_filter]
  exact List.filter_congr (fun x _ => Bool.and_comm _ _)

/-- Specification-side paging (§4.4 / C2): the session's full id list
sorted descending, windowed by the cursor (ids strictly below `afterID`,
when one is given — an empty-string `afterID` is JS-falsy, i.e. no cursor)
and then truncated by the limit. -/
def listMessagesPageSpec (st : Store) (q : MessageListInput) : List String :=
  let full := msgPageAll st q.sessionID
  let windowed :=
    match q.afterID with
    | some a => if a != "" then full.filter (fun i => decide (strKey i < strKey a)) else full
    | none => full
  applyLimit windowed q.limit

/-- C2: every cursor × limit combination of `listMessagesPage` equals
slicing the full descending id sequence (cursor window, then count
truncation); concretely, with ascending ids `[m0,m1,m2,m3]` in one
session, `{limit := 2}` returns `[m3, m2]`, `{limit := 2, afterID := m2}`
returns `[m1, m0]`, and `countMessages` returns 4. -/
theorem C2_listMessagesPage_windows :
    (∀ (st : Store) (q : MessageListInput),
      listMessagesPage st q = listMessagesPageSpec st q) ∧
    listMessagesPage
        (writeMessage (writeMessage (writeMessage (writeMessage emptyStore
          { info := some { id := "m0", sessionID := "S" } })
          { info := some { id := "m1", sessionID := "S" } })
          { info := some { id := "m2", sessionID := "S" } })
          { info := some { id := "m3", sessionID := "S" } })
        { sessionID := "S", limit := some 2 } = ["m3", "m2"] ∧
    listMessagesPage
        (writeMessage (writeMessage (writeMessage (writeMessage emptyStore
          { info := some { id := "m0", sessionID := "S" } })
          { info := some { id := "m1", sessionID := "S" } })
          { info := some { id := "m2", sessionID := "S" } })
          { info := some { id := "m3", sessionID := "S" } })
        { sessionID := "S", limit := some 2, afterID := some "m2" } = ["m1", "m0"] ∧
    countMessages
        (writeMessage (writeMessage (writeMessage (writeMessage emptyStore
          { info := some { id := "m0", sessionID := "S" } })
          { info := some { id := "m1", sessionID := "S" } })
          { info := some { id := "m2", sessionID := "S" } })
          { info := some { id := "m3", sessionID := "S" } })
        "S" = 4 := by
  refine ⟨?gen, by decide, by decide, by decide⟩
  case gen =>
    intro st q
    rcases q with ⟨sid, lim, aft⟩
    cases aft with
    | none =>
      cases lim with
      | none => rfl
      | some l => rfl
    | some a =>
      cases ha : (a != "") with
      | false =>
        cases lim <;> simp [listMessagesPage, listMessagesPageSpec, ha, applyLimit]
      | true =>
        cases lim <;>
          simp [listMessagesPage, listMessagesPageSpec, ha, applyLimit, msgPageAfter_eq]

/-- Extracting the third conjunct of a six-clause `&&` chain. -/
theorem bool_and_extract : ∀ a b c d e f : Bool,
    (((((a && b) && c) && d) && e) && f) =
      ((((((a && b) && true) && d) && e) && f) && c) := by
  decide

/-- Erasing `afterID` and `limit` from the query leaves the cursorless
predicate unchanged (it reads neither field). -/
theorem sessionIndexPred_drop (q : SessionIndexQuery) :
    sessionIndexPred { q with afterID := none, limit := none } none =
      sessionIndexPred q none :=
  rfl

/-- A present cursor conjoins `cursorClause` onto the cursorless
predicate. -/
theorem sessionIndexPred_cursor (q : SessionIndexQuery) (cc : Int × String)
    (r : SessionIndexRecord) :
    sessionIndexPred q (some cc) r =
      (sessionIndexPred q none r && cursorClause cc r) := by
  simp only [sessionIndexPred]
  exact bool_and_extract _ _ _ _ _ _

/-- C3: in a `listSessionIndex` call with a (truthy) `afterID`: if the
cursor id resolves to an index row `after`, the result is exactly the
cursorless, unlimited listing filtered by the composite strict-order
clause — `COALESCE(updated_at,0) < cursorUpdatedAt` or equal with
`id < after.id`, where `cursorUpdatedAt` is `after`'s `updated_at`
falling back to its `created_at` then to 0 — then truncated by the limit;
if the cursor id does not resolve, the call behaves exactly as if no
cursor had been given (no error). -/
theorem C3_cursor_semantics (st : Store) (q : SessionIndexQuery) (a : String)
    (ha : q.afterID = some a) (hne : a ≠ "") :
    (∀ after : SessionIndexRecord,
      (ensureSessionIndex st).session_index.find? (fun r => r.id == a) = some after →
      listSessionIndex st q =
        (applyLimit
          (((listSessionIndex st { q with afterID := none, limit := none }).1).filter
            (cursorClause ((after.updated_at.orElse (fun _ => after.created_at)).getD 0, after.id)))
          q.limit,
         ensureSessionIndex st)) ∧
    ((ensureSessionIndex st).session_index.find? (fun r => r.id == a) = none →
      listSessionIndex st q = listSessionIndex st { q with afterID := none }) := by
  have hbne : (a != "") = true := by simpa using hne
  constructor
  · intro after hafter
    simp only [listSessionIndex, ha, hbne, hafter, if_true, applyLimit]
    refine Prod.ext ?_ rfl
    show applyLimit _ q.limit = applyLimit _ q.limit
    congr 1
    rw [filter_sortDescBy, List.filter_filter]
    have h1 :
        (ensureSessionIndex st).session_index.filter
            (sessionIndexPred q
              (some ((after.updated_at.orElse (fun _ => after.created_at)).getD 0, after.id))) =
          (ensureSessionIndex st).session_index.filter
            (fun r =>
              sessionIndexPred q none r &&
                cursorClause ((after.updated_at.orElse (fun _ => after.created_at)).getD 0, after.id) r) :=
      List.filter_congr (fun r _ => sessionIndexPred_cursor q _ r)
    rw [h1]
    congr 1
    refine List.filter_congr (fun r _ => ?_)
    rw [Bool.and_comm]
    rfl
  · intro hafter
    simp only [listSessionIndex, ha, hbne, hafter, if_true]
    rfl

/-- C3 witness: an unresolvable cursor id behaves as an absent cursor. -/
theorem C3_cursor_semantics_witness :
    listSessionIndex emptyStore { projectID := "p", afterID := some "zz" } =
      listSessionIndex emptyStore
        { projectID := "p", afterID := none } :=
  (C3_cursor_semantics emptyStore { projectID := "p", afterID := some "zz" } "zz" rfl
    (by decide)).2 (by decide)

/-- Stored-document invariant of one `messages` row: it carries an `info`
whose `id` / `sessionID` equal the row's columns (§3 invariant;
`writeMessage` establishes it). -/
def msgRowOK (m : MessageRow) : Bool :=
  match m.data.info with
  | some i => i.id == m.id && i.sessionID == m.sessionID
  | none => false

/-- Well-formedness maintained by the engine and assumed by the joined
listing: `messages.id` is a primary key (no duplicate ids), and every
stored message document satisfies `msgRowOK`. -/
def WF (st : Store) : Prop :=
  (st.messages.map (fun m => m.id)).Nodup ∧ ∀ m ∈ st.messages, msgRowOK m = true

/-- With unique message ids, the full descending page has no duplicates. -/
theorem msgPageAll_nodup (st : Store) (sid : String)
    (hnd : (st.messages.map (fun m => m.id)).Nodup) :
    (msgPageAll st sid).Nodup := by
  unfold msgPageAll sortDescBy
  rw [(List.perm_insertionSort _ _).nodup_iff]
  exact List.Nodup.sublist ((List.filter_sublist st.messages).map (fun m => m.id)) hnd

/-- The messages selected by an `IN (P)` clause, sorted descending, carry
exactly the ids `P` — for any `P` that is a sublist of the full descending
page. -/
theorem join_ids (st : Store) (sid : String) (P : List String)
    (hnd : (st.messages.map (fun m => m.id)).Nodup)
    (hP : List.Sublist P (msgPageAll st sid)) :
    (sortDescBy (fun r => strKey r.id)
        (st.messages.filter (fun m => m.sessionID == sid && P.contains m.id))).map
      (fun m => m.id) = P := by
  rw [map_sortDescBy (fun m : MessageRow => m.id) strKey
      (st.messages.filter (fun m => m.sessionID == sid && P.contains m.id))]
  have hsplit :
      st.messages.filter (fun m => m.sessionID == sid && P.contains m.id) =
        (st.messages.filter (fun m => m.sessionID == sid)).filter
          (fun m => P.contains m.id) := by
    rw [List.filter_filter]
    exact List.filter_congr (fun x _ => Bool.and_comm _ _)
  rw [hsplit, map_filter_comp (fun m : MessageRow => m.id) (fun i => P.contains i)
      (st.messages.filter (fun m => m.sessionID == sid)),
    ← filter_sortDescBy]
  exact filter_contains_of_sublist hP (msgPageAll_nodup st sid hnd)

/-- Streaming rows of one open group: every further same-message part row
is appended to the open entry's parts. -/
theorem group_inblock (mid : String) (mdata : MessageRecord) :
    ∀ (ps : List PartRow) (e : MessageWithParts) (rest : List MessageWithParts),
      e.info.id = mid →
      (ps.map (fun p => ({ messageID := mid, message := mdata, part := some p.data } : JoinRow))).foldl
          groupStep (e :: rest)
        = { info := e.info, parts := e.parts ++ ps.map (fun p => p.data) } :: rest := by
  intro ps
  induction ps with
  | nil => intro e rest _; simp
  | cons p pt ih =>
    intro e rest he
    rw [List.map_cons, List.foldl_cons]
    have hstep :
        groupStep (e :: rest) { messageID := mid, message := mdata, part := some p.data } =
          { info := e.info, parts := e.parts ++ [p.data] } :: rest := by
      simp [groupStep, groupPush, he]
    rw [hstep, ih { info := e.info, parts := e.parts ++ [p.data] } rest he]
    simp

/-- One message's block folds to one fresh entry holding its ascending
parts (an empty block contributes the entry with no parts). -/
theorem group_block (st : Store) (sid : String) (m : MessageRow)
    (hid : (castMessageInfo m.data).id = m.id)
    (acc : List MessageWithParts)
    (hacc : ∀ e, acc.head? = some e → e.info.id ≠ m.id) :
    (blockFor st sid m).foldl groupStep acc =
      { info := castMessageInfo m.data,
        parts := (partsRowsAsc st sid m.id).map (fun p => p.data) } :: acc := by
  unfold blockFor
  cases hps : partsRowsAsc st sid m.id with
  | nil =>
    cases acc with
    | nil => simp [groupStep, groupPush]
    | cons e rest =>
      have hbeq : (e.info.id == m.id) = false := by
        simpa using hacc e rfl
      simp [groupStep, groupPush, hbeq]
  | cons p pt =>
    show List.foldl groupStep acc
        ((p :: pt).map (fun q =>
          ({ messageID := m.id, message := m.data, part := some q.data } : JoinRow))) = _
    rw [List.map_cons, List.foldl_cons]
    have hstep :
        groupStep acc { messageID := m.id, message := m.data, part := some p.data } =
          { info := castMessageInfo m.data, parts := [p.data] } :: acc := by
      cases acc with
      | nil => simp [groupStep, groupPush]
      | cons e rest =>
        have hbeq : (e.info.id == m.id) = false := by
          simpa using hacc e rfl
        simp [groupStep, groupPush, hbeq]
    rw [hstep, group_inblock m.id m.data pt
        { info := castMessageInfo m.data, parts := [p.data] } acc hid]
    simp

/-- Folding all blocks of a duplicate-free message list groups them into
one entry per message, newest first (accumulator in reverse). -/
theorem group_blocks (st : Store) (sid : String) :
    ∀ (ms : List MessageRow) (acc : List MessageWithParts),
      (∀ m ∈ ms, (castMessageInfo m.data).id = m.id) →
      (ms.map (fun m => m.id)).Nodup →
      (∀ e, acc.head? = some e → e.info.id ∉ ms.map (fun m => m.id)) →
      (ms.flatMap (blockFor st sid)).foldl groupStep acc =
        (ms.map (fun m =>
          ({ info := castMessageInfo m.data,
             parts := (partsRowsAsc st sid m.id).map (fun p => p.data) } :
            MessageWithParts))).reverse ++ acc := by
  intro ms
  induction ms with
  | nil => intro acc _ _ _; simp
  | cons m ms ih =>
    intro acc hinfo hnd hacc
    rw [List.flatMap_cons, List.foldl_append]
    rw [List.map_cons, List.nodup_cons] at hnd
    rw [group_block st sid m (hinfo m (List.mem_cons_self m ms)) acc
        (fun e he hbad => hacc e he (by rw [List.map_cons, hbad]; exact List.mem_cons_self _ _))]
    rw [ih (({ info := castMessageInfo m.data, parts := (partsRowsAsc st sid m.id).map (fun p => p.data) } : MessageWithParts) :: acc)
      (fun x hx => hinfo x (List.mem_cons_of_mem m hx)) hnd.2 ?hd]
    case hd =>
      intro e he hbad
      rw [List.head?_cons, Option.some.injEq] at he
      apply hnd.1
      rw [← he] at hbad
      simpa [hinfo m (List.mem_cons_self m ms)] using hbad
    rw [List.map_cons, List.reverse_cons, List.append_assoc]
    rfl

/-- Core of C8: for any id page `P` drawn from the full descending page,
the joined read groups into exactly one entry per selected message, ids in
page order, parts equal to `readParts`. -/
theorem withParts_core (st : Store) (sid : String) (P : List String)
    (hnd : (st.messages.map (fun m => m.id)).Nodup)
    (hinfo : ∀ m ∈ st.messages, msgRowOK m = true)
    (hP : List.Sublist P (msgPageAll st sid)) :
    (groupRows (joinRowsFor st sid P)).map (fun e => e.info.id) = P ∧
    ∀ e ∈ groupRows (joinRowsFor st sid P), e.parts = readParts st sid e.info.id := by
  have hcast : ∀ m ∈ st.messages, (castMessageInfo m.data).id = m.id := by
    intro m hm
    have h := hinfo m hm
    cases hmi : m.data.info with
    | none => simp [msgRowOK, hmi] at h
    | some i =>
      simp only [msgRowOK, hmi, Bool.and_eq_true, beq_iff_eq] at h
      simp only [castMessageInfo, hmi]
      exact h.1
  have hmem : ∀ m ∈ sortDescBy (fun r => strKey r.id)
      (st.messages.filter (fun x => x.sessionID == sid && P.contains x.id)), m ∈ st.messages := by
    intro m hm
    rw [sortDescBy, List.mem_insertionSort] at hm
    exact List.mem_of_mem_filter hm
  have hids := join_ids st sid P hnd hP
  have hnds : ((sortDescBy (fun r => strKey r.id)
      (st.messages.filter (fun x => x.sessionID == sid && P.contains x.id))).map
        (fun m => m.id)).Nodup := by
    rw [hids]
    exact List.Nodup.sublist hP (msgPageAll_nodup st sid hnd)
  have hgroup :
      groupRows (joinRowsFor st sid P) =
        (sortDescBy (fun r => strKey r.id)
          (st.messages.filter (fun x => x.sessionID == sid && P.contains x.id))).map
          (fun m =>
            ({ info := castMessageInfo m.data,
               parts := (partsRowsAsc st sid m.id).map (fun p => p.data) } :
              MessageWithParts)) := by
    unfold groupRows joinRowsFor
    rw [group_blocks st sid _ [] (fun m hm => hcast m (hmem m hm)) hnds (by simp)]
    rw [List.append_nil, List.reverse_reverse]
  constructor
  · rw [hgroup, List.map_map]
    rw [show ((fun e : MessageWithParts => e.info.id) ∘ fun m : MessageRow =>
        ({ info := castMessageInfo m.data,
           parts := (partsRowsAsc st sid m.id).map (fun p => p.data) } : MessageWithParts)) =
        (fun m : MessageRow => (castMessageInfo m.data).id) from rfl]
    rw [List.map_congr_left (fun m hm => hcast m (hmem m hm)), hids]
  · intro e he
    rw [hgroup] at he
    obtain ⟨m, hm, rfl⟩ := List.mem_map.mp he
    show (partsRowsAsc st sid m.id).map (fun p => p.data) =
      readParts st sid (castMessageInfo m.data).id
    rw [hcast m (hmem m hm)]
    rfl

/-- C8: on a well-formed store (`messages.id` primary key, stored
documents matching the §3 invariant), `listMessagesWithPartsPage` returns
entries whose ids are exactly `listMessagesPage` on the same input, in the
same descending order, each entry carrying its parts in ascending part-id
order equal to `readParts`; in particular a message with zero parts
appears exactly once (its id appears once in the duplicate-free page)
with an empty parts list (`readParts` of a partless message). -/
theorem C8_withParts_matches_page (st : Store) (q : MessageListInput) (hwf : WF st) :
    (listMessagesWithPartsPage st q).map (fun e => e.info.id) = listMessagesPage st q ∧
    ∀ e ∈ listMessagesWithPartsPage st q, e.parts = readParts st q.sessionID e.info.id := by
  obtain ⟨hnd, hinfo⟩ := hwf
  rcases q with ⟨sid, lim, aft⟩
  cases aft with
  | none =>
    cases lim with
    | none =>
      exact withParts_core st sid (msgPageAll st sid) hnd hinfo (List.Sublist.refl _)
    | some l =>
      exact withParts_core st sid ((msgPageAll st sid).take l) hnd hinfo
        (List.take_sublist l (msgPageAll st sid))
  | some a =>
    have hafter : List.Sublist (msgPageAfter st sid a) (msgPageAll st sid) := by
      rw [msgPageAfter_eq]
      exact List.filter_sublist (msgPageAll st sid)
    cases ha : (a != "") with
    | false =>
      cases lim with
      | none =>
        simp only [listMessagesWithPartsPage, listMessagesPage, ha, Bool.false_eq_true,
          if_false]
        exact withParts_core st sid (msgPageAll st sid) hnd hinfo (List.Sublist.refl _)
      | some l =>
        simp only [listMessagesWithPartsPage, listMessagesPage, ha, Bool.false_eq_true,
          if_false]
        exact withParts_core st sid ((msgPageAll st sid).take l) hnd hinfo
          (List.take_sublist l (msgPageAll st sid))
    | true =>
      cases lim with
      | none =>
        simp only [listMessagesWithPartsPage, listMessagesPage, ha, if_true]
        exact withParts_core st sid (msgPageAfter st sid a) hnd hinfo hafter
      | some l =>
        simp only [listMessagesWithPartsPage, listMessagesPage, ha, if_true]
        exact withParts_core st sid ((msgPageAfter st sid a).take l) hnd hinfo
          (List.Sublist.trans (List.take_sublist l (msgPageAfter st sid a)) hafter)

/-- C8 witness: two messages, one with two parts, one with none. -/
theorem C8_withParts_matches_page_witness :
    (listMessagesWithPartsPage
        (writeParts
          (writeMessage (writeMessage emptyStore { info := some { id := "m1", sessionID := "S" } })
            { info := some { id := "m2", sessionID := "S" } })
          "S" "m1" [{ id := "p1" }, { id := "p2" }])
        { sessionID := "S", limit := some 2 }).map (fun e => e.info.id) =
      listMessagesPage
        (writeParts
          (writeMessage (writeMessage emptyStore { info := some { id := "m1", sessionID := "S" } })
            { info := some { id := "m2", sessionID := "S" } })
          "S" "m1" [{ id := "p1" }, { id := "p2" }])
        { sessionID := "S", limit := some 2 } ∧
    ∀ e ∈ listMessagesWithPartsPage
        (writeParts
          (writeMessage (writeMessage emptyStore { info := some { id := "m1", sessionID := "S" } })
            { info := some { id := "m2", sessionID := "S" } })
          "S" "m1" [{ id := "p1" }, { id := "p2" }])
        { sessionID := "S", limit := some 2 },
      e.parts = readParts
        (writeParts
          (writeMessage (writeMessage emptyStore { info := some { id := "m1", sessionID := "S" } })
            { info := some { id := "m2", sessionID := "S" } })
          "S" "m1" [{ id := "p1" }, { id := "p2" }])
        "S" e.info.id :=
  C8_withParts_matches_page
    (writeParts
      (writeMessage (writeMessage emptyStore { info := some { id := "m1", sessionID := "S" } })
        { info := some { id := "m2", sessionID := "S" } })
      "S" "m1" [{ id := "p1" }, { id := "p2" }])
    { sessionID := "S", limit := some 2 }
    (by constructor
        · decide
        · decide)

end StorageSqlite
